import Mathlib

/-!
Verification of the syzygy runtime core: the effect queue drain loop
(`Syzygy::handle_effects`), the event bus (`EventBus`), channel boundary
behaviour, task composition (`ThreadTask`/`AsyncTask`), and the `Deferred`
helper. Effects are embedded abstractly: an effect identifier `E` together
with a semantics `run : E → M → M × List E` giving the model update and the
follow-up batch the effect returns.
-/

section Drain

variable {E M : Type}

/-- One pass of the inner `for effect in batch` loop of
`Syzygy::handle_effects`: execute each effect of the batch in insertion
order on the model, pushing each non-empty follow-up batch onto the tail
of the pending queue. -/
def runBatch (run : E → M → M × List E) : List E → M → List (List E) → M × List (List E)
  | [], m, q => (m, q)
  | e :: es, m, q =>
      let r := run e m
      runBatch run es r.1 (if r.2.isEmpty then q else q ++ [r.2])

/-- Fuel-indexed embedding of `Syzygy::handle_effects`: repeatedly pull the
batch at the head of the queue (`EffectReceiver::next_batch` is FIFO) and run
it with `runBatch`, until the queue is empty or the fuel runs out. Returns
the final model, the remaining queue, and the trace of executed effects in
execution order. -/
def handleEffects (run : E → M → M × List E) : Nat → M → List (List E) → M × List (List E) × List E
  | 0, m, q => (m, q, [])
  | _ + 1, m, [] => (m, [], [])
  | fuel + 1, m, b :: rest =>
      let p := runBatch run b m rest
      let r := handleEffects run fuel p.1 p.2
      (r.1, r.2.1, b ++ r.2.2)

/-- The sequence of batches pulled from the queue by `handleEffects`, in the
order they are pulled. -/
def pulled (run : E → M → M × List E) : Nat → M → List (List E) → List (List E)
  | 0, _, _ => []
  | _ + 1, _, [] => []
  | fuel + 1, m, b :: rest =>
      let p := runBatch run b m rest
      b :: pulled run fuel p.1 p.2

/-- The non-empty follow-up batches produced while executing one batch, in
production order (one entry per effect that returns a non-empty batch). -/
def producedFollowUps (run : E → M → M × List E) : List E → M → List (List E)
  | [], _ => []
  | e :: es, m =>
      let r := run e m
      (if r.2.isEmpty then [] else [r.2]) ++ producedFollowUps run es r.1

/-- The model after executing one batch; the queue plays no role in the
model update, so this is the queue-free projection of `runBatch`. -/
def runBatchModel (run : E → M → M × List E) : List E → M → M
  | [], m => m
  | e :: es, m => runBatchModel run es (run e m).1

/-- The model after executing a list of batches in order. -/
def modelAfterBatches (run : E → M → M × List E) : List (List E) → M → M
  | [], m => m
  | b :: bs, m => modelAfterBatches run bs (runBatchModel run b m)

theorem runBatch_fst (run : E → M → M × List E) :
    ∀ (b : List E) (m : M) (q : List (List E)),
      (runBatch run b m q).1 = runBatchModel run b m := by
  intro b
  induction b with
  | nil => intro m q; rfl
  | cons e es ih =>
      intro m q
      simp only [runBatch, runBatchModel]
      exact ih _ _

theorem runBatch_snd (run : E → M → M × List E) :
    ∀ (b : List E) (m : M) (q : List (List E)),
      (runBatch run b m q).2 = q ++ producedFollowUps run b m := by
  intro b
  induction b with
  | nil => intro m q; simp [runBatch, producedFollowUps]
  | cons e es ih =>
      intro m q
      simp only [runBatch, producedFollowUps]
      by_cases h : (run e m).2.isEmpty
      · simp [h, ih]
      · simp [h, ih]

theorem handleEffects_trace_eq_join (run : E → M → M × List E) :
    ∀ (fuel : Nat) (m : M) (q : List (List E)),
      (handleEffects run fuel m q).2.2 = (pulled run fuel m q).flatten := by
  intro fuel
  induction fuel with
  | zero => intro m q; simp [handleEffects, pulled]
  | succ fuel ih =>
      intro m q
      cases q with
      | nil => simp [handleEffects, pulled]
      | cons b rest =>
          simp only [handleEffects, pulled, List.flatten_cons]
          rw [ih]

theorem handleEffects_queue_eq (run : E → M → M × List E)
    (fuel : Nat) (m : M) (b : List E) (rest : List (List E)) :
    (handleEffects run (fuel + 1) m (b :: rest)).2.1 =
      (handleEffects run fuel (runBatch run b m rest).1 (runBatch run b m rest).2).2.1 := rfl

theorem drained_queue_le_pulled (run : E → M → M × List E) :
    ∀ (fuel : Nat) (m : M) (q : List (List E)),
      (handleEffects run fuel m q).2.1 = [] → q <+: pulled run fuel m q := by
  intro fuel
  induction fuel with
  | zero =>
      intro m q h
      simp only [handleEffects] at h
      subst h
      exact List.nil_prefix
  | succ fuel ih =>
      intro m q h
      cases q with
      | nil => exact List.nil_prefix
      | cons b rest =>
          simp only [handleEffects] at h
          have hsub := ih _ _ h
          have hrest : rest <+: (runBatch run b m rest).2 := by
            rw [runBatch_snd]
            exact List.prefix_append _ _
          have : rest <+: pulled run fuel (runBatch run b m rest).1 (runBatch run b m rest).2 :=
            hrest.trans hsub
          obtain ⟨t, ht⟩ := this
          exact ⟨t, by simp only [pulled, List.cons_append, ht]⟩

theorem queue_le_pulled_of_fuel (run : E → M → M × List E) :
    ∀ (fuel : Nat) (q extra : List (List E)) (m : M),
      q.length ≤ fuel → q <+: pulled run fuel m (q ++ extra) := by
  intro fuel
  induction fuel with
  | zero =>
      intro q extra m h
      have : q = [] := List.eq_nil_of_length_eq_zero (Nat.le_zero.mp h)
      subst this
      exact List.nil_prefix
  | succ fuel ih =>
      intro q extra m h
      cases q with
      | nil => exact List.nil_prefix
      | cons b rest =>
          have hstep :
              (runBatch run b m (rest ++ extra)).2 =
                rest ++ (extra ++ producedFollowUps run b m) := by
            rw [runBatch_snd, List.append_assoc]
          have hlen : rest.length ≤ fuel := Nat.succ_le_succ_iff.mp (by simpa using h)
          have := ih rest (extra ++ producedFollowUps run b m)
            (runBatch run b m (rest ++ extra)).1 hlen
          rw [← hstep] at this
          obtain ⟨t, ht⟩ := this
          refine ⟨t, ?_⟩
          show (b :: rest) ++ t = pulled run (fuel + 1) m ((b :: rest) ++ extra)
          have hp : pulled run (fuel + 1) m ((b :: rest) ++ extra) =
              b :: pulled run fuel (runBatch run b m (rest ++ extra)).1
                (runBatch run b m (rest ++ extra)).2 := rfl
          rw [hp, List.cons_append, ht]

theorem followups_of_batch_pulled (run : E → M → M × List E) :
    ∀ (fuel : Nat) (m : M) (qs : List (List E)) (b : List E) (extra : List (List E)),
      (handleEffects run fuel m (qs ++ b :: extra)).2.1 = [] →
      ∀ f ∈ producedFollowUps run b (modelAfterBatches run qs m),
        f ∈ pulled run fuel m (qs ++ b :: extra) := by
  intro fuel
  induction fuel with
  | zero =>
      intro m qs b extra h
      simp only [handleEffects] at h
      exact absurd h (by simp)
  | succ fuel ih =>
      intro m qs b extra h
      cases qs with
      | nil =>
          simp only [List.nil_append] at h ⊢
          simp only [handleEffects] at h
          intro f hf
          have hq : (runBatch run b m extra).2 = extra ++ producedFollowUps run b m :=
            runBatch_snd run b m extra
          have hpre := drained_queue_le_pulled run fuel _ _ h
          have hfq : f ∈ (runBatch run b m extra).2 := by
            rw [hq]
            exact List.mem_append_right _ (by simpa [modelAfterBatches] using hf)
          have : f ∈ pulled run fuel (runBatch run b m extra).1 (runBatch run b m extra).2 :=
            hpre.subset hfq
          simp only [pulled]
          exact List.mem_cons_of_mem _ this
      | cons q0 qs' =>
          simp only [List.cons_append] at h ⊢
          simp only [handleEffects] at h
          intro f hf
          have hq : (runBatch run q0 m (qs' ++ b :: extra)).2 =
              qs' ++ b :: (extra ++ producedFollowUps run q0 m) := by
            rw [runBatch_snd]
            simp [List.append_assoc]
          have hm : modelAfterBatches run (q0 :: qs') m =
              modelAfterBatches run qs' (runBatchModel run q0 m) := rfl
          rw [hm] at hf
          rw [← runBatch_fst run q0 m (qs' ++ b :: extra)] at hf
          have hdrained :
              (handleEffects run fuel (runBatch run q0 m (qs' ++ b :: extra)).1
                (qs' ++ b :: (extra ++ producedFollowUps run q0 m))).2.1 = [] := by
            rw [← hq]; exact h
          have := ih (runBatch run q0 m (qs' ++ b :: extra)).1 qs' b
            (extra ++ producedFollowUps run q0 m) hdrained f hf
          simp only [pulled]
          rw [hq]
          exact List.mem_cons_of_mem _ this

end Drain

section DispatchSync

/-- An effect identifier for reasoning about `DispatchEffect::dispatch_sync`:
`plain i` is an ordinary user effect drawn from a family indexed by `Nat`;
`wrapped i` is the same effect wrapped by `dispatch_sync`, which additionally
fires the one-shot completion signal of receiver `i` after the inner effect
has run. -/
inductive SEff : Type where
  | plain (i : Nat)
  | wrapped (i : Nat)
deriving DecidableEq

variable {α : Type}

/-- Semantics of the effects of `SEff` over a state carrying the user model
together with the completion flags of the outstanding `dispatch_sync`
one-shot channels. `wrapped i` mirrors the closure built by `dispatch_sync`:
it runs the inner effect, then sends `()` on oneshot channel `i` (ignoring
the send result, so a dropped receiver is harmless), and returns the inner
effect's follow-up batch unchanged. -/
def runSEff (fam : Nat → α → α × List SEff) :
    SEff → α × (Nat → Bool) → (α × (Nat → Bool)) × List SEff
  | SEff.plain i, st => (((fam i st.1).1, st.2), (fam i st.1).2)
  | SEff.wrapped i, st =>
      (((fam i st.1).1, fun j => if j = i then true else st.2 j), (fam i st.1).2)

theorem runBatch_flag_preserved (fam : Nat → α → α × List SEff) (i : Nat) :
    ∀ (b : List SEff) (st : α × (Nat → Bool)) (q : List (List SEff)),
      (∀ e ∈ b, e ≠ SEff.wrapped i) →
      ((runBatch (runSEff fam) b st q).1).2 i = st.2 i := by
  intro b
  induction b with
  | nil => intro st q _; rfl
  | cons e es ih =>
      intro st q h
      have he := h e (List.mem_cons_self _ _)
      have hes : ∀ x ∈ es, x ≠ SEff.wrapped i := fun x hx => h x (List.mem_cons_of_mem _ hx)
      simp only [runBatch]
      rw [ih _ _ hes]
      cases e with
      | plain j => rfl
      | wrapped j =>
          have hji : j ≠ i := fun hji => he (by rw [hji])
          simp only [runSEff]
          exact if_neg (fun hij : i = j => hji hij.symm)

theorem runBatch_flag_mono (fam : Nat → α → α × List SEff) (i : Nat) :
    ∀ (b : List SEff) (st : α × (Nat → Bool)) (q : List (List SEff)),
      st.2 i = true → ((runBatch (runSEff fam) b st q).1).2 i = true := by
  intro b
  induction b with
  | nil => intro st q h; exact h
  | cons e es ih =>
      intro st q h
      simp only [runBatch]
      apply ih
      cases e with
      | plain j => exact h
      | wrapped j =>
          by_cases hij : i = j
          · simp [runSEff, hij]
          · simp [runSEff, if_neg hij, h]

theorem runBatch_flag_set (fam : Nat → α → α × List SEff) (i : Nat) :
    ∀ (b : List SEff) (st : α × (Nat → Bool)) (q : List (List SEff)),
      SEff.wrapped i ∈ b → ((runBatch (runSEff fam) b st q).1).2 i = true := by
  intro b
  induction b with
  | nil => intro st q h; exact absurd h (by simp)
  | cons e es ih =>
      intro st q h
      rcases List.mem_cons.mp h with he | hes
      · subst he
        simp only [runBatch]
        apply runBatch_flag_mono
        simp [runSEff]
      · simp only [runBatch]
        exact ih _ _ hes

theorem handleEffects_flag_preserved (fam : Nat → α → α × List SEff) (i : Nat) :
    ∀ (fuel : Nat) (st : α × (Nat → Bool)) (q : List (List SEff)),
      (∀ e ∈ (handleEffects (runSEff fam) fuel st q).2.2, e ≠ SEff.wrapped i) →
      ((handleEffects (runSEff fam) fuel st q).1).2 i = st.2 i := by
  intro fuel
  induction fuel with
  | zero => intro st q _; rfl
  | succ fuel ih =>
      intro st q h
      cases q with
      | nil => rfl
      | cons b rest =>
          simp only [handleEffects] at h ⊢
          have hb : ∀ e ∈ b, e ≠ SEff.wrapped i :=
            fun e he => h e (List.mem_append_left _ he)
          have htr : ∀ e ∈ (handleEffects (runSEff fam) fuel
              (runBatch (runSEff fam) b st rest).1
              (runBatch (runSEff fam) b st rest).2).2.2, e ≠ SEff.wrapped i :=
            fun e he => h e (List.mem_append_right _ he)
          rw [ih _ _ htr]
          exact runBatch_flag_preserved fam i b st rest hb

theorem handleEffects_flag_mono (fam : Nat → α → α × List SEff) (i : Nat) :
    ∀ (fuel : Nat) (st : α × (Nat → Bool)) (q : List (List SEff)),
      st.2 i = true → ((handleEffects (runSEff fam) fuel st q).1).2 i = true := by
  intro fuel
  induction fuel with
  | zero => intro st q h; exact h
  | succ fuel ih =>
      intro st q h
      cases q with
      | nil => exact h
      | cons b rest =>
          simp only [handleEffects]
          exact ih _ _ (runBatch_flag_mono fam i b st rest h)

theorem handleEffects_flag_set (fam : Nat → α → α × List SEff) (i : Nat) :
    ∀ (fuel : Nat) (st : α × (Nat → Bool)) (q : List (List SEff)),
      SEff.wrapped i ∈ (handleEffects (runSEff fam) fuel st q).2.2 →
      ((handleEffects (runSEff fam) fuel st q).1).2 i = true := by
  intro fuel
  induction fuel with
  | zero => intro st q h; exact absurd h (by simp [handleEffects])
  | succ fuel ih =>
      intro st q h
      cases q with
      | nil => exact absurd h (by simp [handleEffects])
      | cons b rest =>
          simp only [handleEffects] at h ⊢
          rcases List.mem_append.mp h with hb | htr
          · exact handleEffects_flag_mono fam i fuel _ _
              (runBatch_flag_set fam i b st rest hb)
          · exact ih _ _ htr

end DispatchSync

section EventBusModel

/-- Mirror of `EventHandlerError` in `event_bus.rs`. -/
inductive EventHandlerError : Type where
  | AlreadyExists (name : String)
  | HandlerNotFound (name : String)
  | Unregistered (name : String)
deriving DecidableEq

/-- Mirror of `EventType`: a static type identity (`TypeId`, abstracted to a
`Nat`) together with the type's name string. -/
structure EventType where
  typeId : Nat
  name : String
deriving DecidableEq

/-- Mirror of `EventHandler`: a subscription name together with the handler
closure, abstracted to an identifier `hid`. -/
structure EventHandler where
  name : String
  hid : Nat
deriving DecidableEq

/-- The handler registry `FxHashMap<EventType, Vec<EventHandler>>`, embedded
as an association list with unique keys. -/
def Registry : Type := List (EventType × List EventHandler)

instance : DecidableEq Registry := by
  unfold Registry
  infer_instance

/-- Point lookup in the registry (`handlers.get(event_type)`). -/
def lookupReg : Registry → EventType → Option (List EventHandler)
  | [], _ => none
  | p :: rest, et => if p.1 = et then some p.2 else lookupReg rest et

/-- Mirror of `handlers.entry(event_type).or_default().push(h)`: append the
handler to the existing entry for the event type, creating the entry when
absent. -/
def insertHandler : Registry → EventType → EventHandler → Registry
  | [], et, h => [(et, [h])]
  | p :: rest, et, h =>
      if p.1 = et then (p.1, p.2 ++ [h]) :: rest else p :: insertHandler rest et h

/-- All subscription names present anywhere in the registry. -/
def registryNames (reg : Registry) : List String :=
  (reg.map (fun p => p.2.map EventHandler.name)).flatten

/-- Mirror of the duplicate-name check in `EventBus::subscribe`:
`handlers.values().any(|hs| hs.iter().any(|h| h.name == name))`. -/
def nameExists (reg : Registry) (name : String) : Bool :=
  reg.any (fun p => p.2.any (fun h => h.name == name))

/-- Mirror of the name derivation in `EventBus::subscribe`:
`name.map_or_else(|| type_name::<T>().to_string(), Into::into)`. -/
def deriveName (et : EventType) (name? : Option String) : String :=
  name?.getD et.name

namespace EventBus

/-- Mirror of `EventBus::subscribe`: derive the subscription name, fail with
`AlreadyExists` when the name is already present anywhere in the registry
(leaving the registry untouched), otherwise append the handler under the
event's type identity. Returns the updated registry paired with the error,
mirroring `&self` mutation plus `Result<(), EventHandlerError>`. -/
def subscribe (reg : Registry) (et : EventType) (name? : Option String) (hid : Nat) :
    Registry × Option EventHandlerError :=
  let name := deriveName et name?
  if nameExists reg name then
    (reg, some (EventHandlerError.AlreadyExists name))
  else
    (insertHandler reg et ⟨name, hid⟩, none)

/-- Mirror of `EventBus::unsubscribe`: run `retain(|h| h.name != name)` over
every entry's handler list, and report `HandlerNotFound` when no list
shrank (equivalently, when no handler bore the name). -/
def unsubscribe (reg : Registry) (name : String) : Registry × Option EventHandlerError :=
  let reg' : Registry := reg.map (fun p => (p.1, p.2.filter (fun h => h.name != name)))
  if nameExists reg name then
    (reg', none)
  else
    (reg', some (EventHandlerError.HandlerNotFound name))

/-- Mirror of `EventBus::handle`: look up the entry for the event type; when
the entry is absent fail with `Unregistered`, otherwise return the handlers
that are invoked, in their stored (registration) order. -/
def handle (reg : Registry) (et : EventType) :
    Except EventHandlerError (List EventHandler) :=
  match lookupReg reg et with
  | none => Except.error (EventHandlerError.Unregistered et.name)
  | some hs => Except.ok hs

end EventBus

theorem nameExists_iff (reg : Registry) (n : String) :
    nameExists reg n = true ↔ n ∈ registryNames reg := by
  unfold nameExists registryNames
  induction reg with
  | nil => simp
  | cons p rest ih =>
      simp only [List.any_cons, List.map_cons, List.flatten_cons, Bool.or_eq_true,
        List.mem_append, ih]
      constructor
      · rintro (hp | hr)
        · left
          rcases List.any_eq_true.mp hp with ⟨h, hh, hn⟩
          exact List.mem_map.mpr ⟨h, hh, (beq_iff_eq.mp hn).symm ▸ rfl⟩
        · right; exact hr
      · rintro (hp | hr)
        · left
          rcases List.mem_map.mp hp with ⟨h, hh, hn⟩
          exact List.any_eq_true.mpr ⟨h, hh, beq_iff_eq.mpr hn⟩
        · right; exact hr

theorem lookupReg_insertHandler (et : EventType) (h : EventHandler) :
    ∀ reg : Registry,
      lookupReg (insertHandler reg et h) et = some ((lookupReg reg et).getD [] ++ [h]) := by
  intro reg
  induction reg with
  | nil => simp [insertHandler, lookupReg]
  | cons p rest ih =>
      by_cases hp : p.1 = et
      · simp [insertHandler, lookupReg, hp]
      · simp [insertHandler, lookupReg, hp, ih]

theorem registryNames_cons (p : EventType × List EventHandler) (rest : Registry) :
    registryNames (p :: rest) = p.2.map EventHandler.name ++ registryNames rest := rfl

theorem registryNames_insertHandler_perm (et : EventType) (h : EventHandler) :
    ∀ reg : Registry,
      (registryNames (insertHandler reg et h)).Perm (h.name :: registryNames reg) := by
  intro reg
  induction reg with
  | nil => simp [insertHandler, registryNames]
  | cons p rest ih =>
      by_cases hp : p.1 = et
      · have hins : insertHandler (p :: rest) et h = (p.1, p.2 ++ [h]) :: rest := by
          simp [insertHandler, hp]
        rw [hins]
        simp only [registryNames_cons, List.map_append, List.map_singleton,
          List.append_assoc, List.singleton_append]
        exact List.perm_middle
      · have hins : insertHandler (p :: rest) et h = p :: insertHandler rest et h := by
          simp [insertHandler, hp]
        rw [hins]
        simp only [registryNames_cons]
        exact (List.Perm.append_left _ ih).trans List.perm_middle

theorem filter_name_eq_self (hs : List EventHandler) (name : String)
    (h : hs.any (fun x => x.name == name) = false) :
    hs.filter (fun x => x.name != name) = hs := by
  apply List.filter_eq_self.mpr
  intro a ha
  have := List.any_eq_false.mp h a ha
  simpa [bne_iff_ne] using this

theorem unsubscribe_map_eq_self (reg : Registry) (name : String)
    (h : nameExists reg name = false) :
    (reg.map (fun p => (p.1, p.2.filter (fun x => x.name != name))) : Registry) = reg := by
  unfold nameExists at h
  induction reg with
  | nil => rfl
  | cons p rest ih =>
      simp only [List.any_cons, Bool.or_eq_false_iff] at h
      simp only [List.map_cons]
      rw [filter_name_eq_self p.2 name h.1, ih h.2]

theorem any_name_filter_false (hs : List EventHandler) (name : String) :
    (hs.filter (fun x => x.name != name)).any (fun x => x.name == name) = false := by
  apply List.any_eq_false.mpr
  intro a ha
  have := (List.mem_filter.mp ha).2
  simp only [bne_iff_ne, ne_eq, decide_eq_true_eq] at this
  simp [this]

theorem nameExists_unsubscribed_false (reg : Registry) (name : String) :
    nameExists ((reg.map (fun p => (p.1, p.2.filter (fun x => x.name != name)))) : Registry)
      name = false := by
  unfold nameExists
  rw [List.any_map]
  apply List.any_eq_false.mpr
  intro p _
  simp only [Function.comp]
  simp [any_name_filter_false p.2 name]

theorem unsubscribe_fst (reg : Registry) (name : String) :
    (EventBus.unsubscribe reg name).1 =
      (reg.map (fun p => (p.1, p.2.filter (fun x => x.name != name))) : Registry) := by
  unfold EventBus.unsubscribe
  by_cases h : nameExists reg name <;> simp [h]

theorem lookupReg_map_filter (reg : Registry) (et : EventType) (pred : EventHandler → Bool) :
    lookupReg ((reg.map (fun p => (p.1, p.2.filter pred)) : Registry)) et =
      (lookupReg reg et).map (fun hs => hs.filter pred) := by
  induction reg with
  | nil => rfl
  | cons p rest ih =>
      by_cases hp : p.1 = et
      · simp [lookupReg, hp]
      · simp [lookupReg, hp, ih]

end EventBusModel

section ChannelBoundary

/-- Mirror of `EffectError` in `effect_bus.rs`. -/
inductive EffectError : Type where
  | ChannelClosed
  | RuntimeStopped
deriving DecidableEq

/-- Mirror of `EmitError` in `event_bus.rs`. -/
inductive EmitError : Type where
  | ChannelClosed
  | RuntimeStopped
deriving DecidableEq

/-- The observable outcome of attempting a channel send at the API boundary:
the message is delivered, an error value is returned to the caller, or the
calling thread panics. -/
inductive SendOutcome (ε : Type) : Type where
  | delivered
  | errorReturned (err : ε)
  | panicked
deriving DecidableEq

/-- Mirror of `EffectSender::dispatch` in `dispatch.rs`: an unbounded
crossbeam send succeeds exactly while some receiver is alive; on a closed
channel the source calls `.expect(...)`, i.e. panics. -/
def EffectSender.dispatch (isOpen : Bool) : SendOutcome EffectError :=
  if isOpen then SendOutcome.delivered else SendOutcome.panicked

/-- Mirror of `EffectBus::dispatch` in `effect_bus.rs`: on a closed channel
the send error is mapped to `EffectError::ChannelClosed` and returned. -/
def EffectBus.dispatch (isOpen : Bool) : SendOutcome EffectError :=
  if isOpen then SendOutcome.delivered
  else SendOutcome.errorReturned EffectError.ChannelClosed

/-- Mirror of `EventBus::emit`: on a closed channel the send error is mapped
to `EmitError::ChannelClosed` and returned. -/
def EventBus.emit (isOpen : Bool) : SendOutcome EmitError :=
  if isOpen then SendOutcome.delivered
  else SendOutcome.errorReturned EmitError.ChannelClosed

end ChannelBoundary

section Tasks

variable {C O T β : Type}

/-- Mirror of `ThreadTask<M, O>`: an optional boxed inner callable
`fn(AsyncContext) -> O`, taken out when the task is performed. -/
structure ThreadTask (C O : Type) : Type where
  inner : Option (C → O)

/-- Mirror of `AsyncTask<M, O>`: an optional boxed inner callable returning
a future of `O`; futures are embedded by their eventual value. -/
structure AsyncTask (C O : Type) : Type where
  inner : Option (C → O)

/-- Mirror of `ThreadTask::new`. -/
def ThreadTask.new (f : C → O) : ThreadTask C O := ⟨some f⟩

/-- Mirror of `AsyncTask::new`. -/
def AsyncTask.new (f : C → O) : AsyncTask C O := ⟨some f⟩

/-- Mirror of `ThreadTask::and_then`: wrap the inner callable so that `f` is
applied to its result; a pure transformation producing a `ThreadTask`. -/
def ThreadTask.and_then (t : ThreadTask C O) (f : O → T) : ThreadTask C T :=
  ⟨t.inner.map (fun task => fun ctx => f (task ctx))⟩

/-- Mirror of `AsyncTask::and_then`: wrap the inner callable so that the
`f`-future is awaited on its result; a pure transformation producing an
`AsyncTask`. -/
def AsyncTask.and_then (t : AsyncTask C O) (f : O → T) : AsyncTask C T :=
  ⟨t.inner.map (fun task => fun ctx => f (task ctx))⟩

/-- Run a thread task's inner callable on a context (`none` when the inner
callable has already been taken). -/
def ThreadTask.run (t : ThreadTask C O) (cx : C) : Option O :=
  t.inner.map (fun task => task cx)

/-- Run an async task's inner callable on a context. -/
def AsyncTask.run (t : AsyncTask C O) (cx : C) : Option O :=
  t.inner.map (fun task => task cx)

/-- What executing one effect of a batch yields, as observed by the drain
loop and the effect channel: optionally a job handed to a background worker
(whose result, a batch represented as a `List β`, is dispatched through the
effect sender as a fresh batch), and the follow-up batch returned directly
to the drain loop. -/
structure EffectOutcome (C β : Type) : Type where
  job : Option (C → List β)
  followUp : List β

/-- Mirror of `ThreadTask::perform`: the returned effect takes the inner
callable, spawns a worker thread computing `f` of the task's result and
dispatching it through the sender, and returns `Effects::none()` to the
drain loop. -/
def ThreadTask.perform (t : ThreadTask C O) (f : O → List β) : EffectOutcome C β :=
  { job := t.inner.map (fun task => fun cx => f (task cx)), followUp := [] }

/-- Mirror of `AsyncTask::perform`: identical to the thread version except
the job is spawned onto the async scheduler. -/
def AsyncTask.perform (t : AsyncTask C O) (f : O → List β) : EffectOutcome C β :=
  { job := t.inner.map (fun task => fun cx => f (task cx)), followUp := [] }

/-- Mirror of the fluent batch builder `Effects<M>`: an ordered vector of
effects, each represented by its execution outcome. -/
structure Effects (C β : Type) : Type where
  items : List (EffectOutcome C β)

/-- Mirror of `Effects::none()`. -/
def Effects.none : Effects C β := ⟨[]⟩

/-- Mirror of `Effects::effect`: push an effect onto the batch. -/
def Effects.effect (es : Effects C β) (e : EffectOutcome C β) : Effects C β :=
  ⟨es.items ++ [e]⟩

/-- Mirror of `Effects::spawn`: push `ThreadTask::new(task).perform(perf)`
onto the batch. -/
def Effects.spawn (es : Effects C β) (task : C → O) (perf : O → List β) : Effects C β :=
  ⟨es.items ++ [(ThreadTask.new task).perform perf]⟩

/-- Mirror of `UnfinishedAsyncEffects<M, O>`: the intermediate value built
by `Effects::task`, holding the pending async task and the effects
accumulated so far. -/
structure UnfinishedAsyncEffects (C O β : Type) : Type where
  task : AsyncTask C O
  items : List (EffectOutcome C β)

/-- Mirror of `Effects::task`: move the accumulated items into an
unfinished-batch value wrapping `AsyncTask::new(task)`. -/
def Effects.task (es : Effects C β) (t : C → O) : UnfinishedAsyncEffects C O β :=
  ⟨AsyncTask.new t, es.items⟩

/-- Mirror of `UnfinishedAsyncEffects::perform`: append an effect which
takes the task, spawns it on the async scheduler with `f` applied to its
result and the result dispatched through the sender, and returns
`Effects::none()` to the drain loop. -/
def UnfinishedAsyncEffects.perform (u : UnfinishedAsyncEffects C O β)
    (f : O → List β) : Effects C β :=
  ⟨u.items ++ [{ job := u.task.inner.map (fun task => fun cx => f (task cx)),
                 followUp := [] }]⟩

/-- Mirror of `UnfinishedAsyncEffects::done`: append an effect which runs
the task for its side effects, dispatches `Effects::none()` through the
sender, and returns `Effects::none()` to the drain loop. -/
def UnfinishedAsyncEffects.done (u : UnfinishedAsyncEffects C O β) : Effects C β :=
  ⟨u.items ++ [{ job := u.task.inner.map
                   (fun task => fun cx => (fun _ => ([] : List β)) (task cx)),
                 followUp := [] }]⟩

end Tasks

section DeferredHelper

/-- Mirror of `Deferred<F>`: a scoped value holding an optional closure
(abstracted to a value of type `α` standing for the closure identity). -/
structure Deferred (α : Type) : Type where
  inner : Option α

/-- Mirror of `defer`: wrap the closure so it runs when the value is
dropped. -/
def defer {α : Type} (f : α) : Deferred α := ⟨some f⟩

/-- Mirror of `Deferred::abort`: `self.0.take()` discards the closure; the
value is then dropped with nothing inside. -/
def Deferred.abort {α : Type} (_ : Deferred α) : Deferred α := ⟨none⟩

/-- The `Drop` implementation: `take` the closure, returning the closure to
run (if any) together with the emptied value. -/
def Deferred.dropRun {α : Type} (d : Deferred α) : Option α × Deferred α :=
  (d.inner, ⟨none⟩)

end DeferredHelper

/-- C1: for every effect semantics and every run of the drain loop, the
sequence of effects executed is the concatenation of the per-batch insertion
orders of the pulled batches in batch arrival (FIFO) order; after executing
a batch the queue equals the previous queue with the batch's non-empty
follow-up batches appended at the tail in production order (never spliced
in-place), so a follow-up executes only after all remaining peers of its
originating batch and all batches already enqueued; and every batch already
enqueued is pulled, in order, before any follow-up. -/
theorem drain_order_batches_fifo_followups_tail {E M : Type} (run : E → M → M × List E) :
    (∀ (b : List E) (m : M) (q : List (List E)),
        (runBatch run b m q).2 = q ++ producedFollowUps run b m)
    ∧ (∀ (fuel : Nat) (m : M) (q : List (List E)),
        (handleEffects run fuel m q).2.2 = (pulled run fuel m q).flatten)
    ∧ (∀ (fuel : Nat) (q extra : List (List E)) (m : M),
        q.length ≤ fuel → q <+: pulled run fuel m (q ++ extra)) :=
  ⟨runBatch_snd run, handleEffects_trace_eq_join run, queue_le_pulled_of_fuel run⟩

/-- C1 witness: concrete instance of the drain-order theorem with its fuel
hypothesis discharged. -/
theorem drain_order_batches_fifo_followups_tail_witness :
    (([[2], [5]] : List (List Nat)).length ≤ 3
      ∧ ([[2], [5]] : List (List Nat)) <+:
          pulled (fun e m => (m + e, if e = 2 then [7] else [])) 3 0 ([[2], [5]] ++ []))
    ∧ (runBatch (fun e m => (m + e, if e = 2 then [7] else [])) [2, 0] 0 [[5]]).2 =
        [[5]] ++ producedFollowUps (fun e m => (m + e, if e = 2 then [7] else [])) [2, 0] 0 :=
  ⟨⟨by decide,
    (drain_order_batches_fifo_followups_tail
      (fun e m => (m + e, if e = 2 then [7] else []))).2.2 3 [[2], [5]] [] 0 (by decide)⟩,
   (drain_order_batches_fifo_followups_tail
      (fun e m => (m + e, if e = 2 then [7] else []))).1 [2, 0] 0 [[5]]⟩

/-- C2: draining an empty queue is a no-op leaving the model unchanged; and
when the drain terminates with an empty queue, every effect of every
non-empty follow-up batch produced by the last batch in the queue appears in
the executed trace, i.e. is executed before `handle_effects` returns. -/
theorem handle_effects_empty_noop_and_quiescence {E M : Type} (run : E → M → M × List E) :
    (∀ (fuel : Nat) (m : M), handleEffects run fuel m [] = (m, [], []))
    ∧ (∀ (fuel : Nat) (m : M) (qs : List (List E)) (b : List E),
        (handleEffects run fuel m (qs ++ [b])).2.1 = [] →
        ∀ f ∈ producedFollowUps run b (modelAfterBatches run qs m),
          ∀ e ∈ f, e ∈ (handleEffects run fuel m (qs ++ [b])).2.2) := by
  constructor
  · intro fuel m
    cases fuel <;> rfl
  · intro fuel m qs b hdr f hf e he
    have hp : f ∈ pulled run fuel m (qs ++ [b]) :=
      followups_of_batch_pulled run fuel m qs b [] hdr f hf
    rw [handleEffects_trace_eq_join]
    exact List.mem_flatten.mpr ⟨f, hp, he⟩

/-- C2 witness: a queue ending in a batch whose effect returns a non-empty
follow-up; the drain terminates and the follow-up's effect is in the trace. -/
theorem handle_effects_empty_noop_and_quiescence_witness :
    ((handleEffects (fun e m => (m + e, if e = 2 then [7] else [])) 4 0 ([[1]] ++ [[2]])).2.1 = []
      ∧ [7] ∈ producedFollowUps (fun e m => (m + e, if e = 2 then [7] else [])) [2]
          (modelAfterBatches (fun e m => (m + e, if e = 2 then [7] else [])) [[1]] 0)
      ∧ (7 : Nat) ∈ ([7] : List Nat))
    ∧ (7 : Nat) ∈
        (handleEffects (fun e m => (m + e, if e = 2 then [7] else [])) 4 0 ([[1]] ++ [[2]])).2.2 :=
  ⟨⟨by decide, by decide, by decide⟩,
   (handle_effects_empty_noop_and_quiescence
      (fun e m => (m + e, if e = 2 then [7] else []))).2 4 0 [[1]] [2]
      (by decide) [7] (by decide) 7 (by decide)⟩

/-- C3: subscribe records the handler under the event's type identity with
the supplied name, or a name derived from the event's type name when none is
supplied; when the name already exists anywhere in the registry subscribe
fails with AlreadyExists and the registry is unchanged; and subscribe
preserves global uniqueness of subscription names. -/
theorem subscribe_type_indexed_names_globally_unique
    (reg : Registry) (et : EventType) (name? : Option String) (hid : Nat) :
    (nameExists reg (deriveName et name?) = true →
        EventBus.subscribe reg et name? hid =
          (reg, some (EventHandlerError.AlreadyExists (deriveName et name?))))
    ∧ (nameExists reg (deriveName et name?) = false →
        (EventBus.subscribe reg et name? hid).2 = none
        ∧ lookupReg (EventBus.subscribe reg et name? hid).1 et =
            some ((lookupReg reg et).getD [] ++ [⟨deriveName et name?, hid⟩]))
    ∧ ((registryNames reg).Nodup →
        (registryNames (EventBus.subscribe reg et name? hid).1).Nodup) := by
  refine ⟨?_, ?_, ?_⟩
  · intro h
    simp [EventBus.subscribe, h]
  · intro h
    constructor
    · simp [EventBus.subscribe, h]
    · simp only [EventBus.subscribe, h, Bool.false_eq_true, if_false]
      exact lookupReg_insertHandler et _ reg
  · intro hnd
    by_cases h : nameExists reg (deriveName et name?)
    · simp [EventBus.subscribe, h, hnd]
    · simp only [EventBus.subscribe, h, Bool.false_eq_true, if_false]
      have hnotmem : deriveName et name? ∉ registryNames reg := by
        intro hmem
        exact h ((nameExists_iff reg _).mpr hmem)
      exact ((registryNames_insertHandler_perm et ⟨deriveName et name?, hid⟩ reg).nodup_iff).mpr
        (List.nodup_cons.mpr ⟨hnotmem, hnd⟩)

/-- C3 witness: on a registry already holding a subscription named a, a
second subscribe with the same name fails and leaves the registry unchanged;
with a fresh name it succeeds, appends under the event type, and keeps the
names globally unique. -/
theorem subscribe_type_indexed_names_globally_unique_witness :
    (nameExists [(⟨0, "E"⟩, [⟨"a", 0⟩])] (deriveName ⟨0, "E"⟩ (some "a")) = true
      ∧ EventBus.subscribe [(⟨0, "E"⟩, [⟨"a", 0⟩])] ⟨0, "E"⟩ (some "a") 1 =
          ([(⟨0, "E"⟩, [⟨"a", 0⟩])],
            some (EventHandlerError.AlreadyExists (deriveName ⟨0, "E"⟩ (some "a")))))
    ∧ (nameExists [(⟨0, "E"⟩, [⟨"a", 0⟩])] (deriveName ⟨0, "E"⟩ (some "b")) = false
      ∧ (EventBus.subscribe [(⟨0, "E"⟩, [⟨"a", 0⟩])] ⟨0, "E"⟩ (some "b") 1).2 = none
      ∧ lookupReg (EventBus.subscribe [(⟨0, "E"⟩, [⟨"a", 0⟩])] ⟨0, "E"⟩ (some "b") 1).1 ⟨0, "E"⟩ =
          some ((lookupReg [(⟨0, "E"⟩, [⟨"a", 0⟩])] ⟨0, "E"⟩).getD [] ++
            [⟨deriveName ⟨0, "E"⟩ (some "b"), 1⟩]))
    ∧ ((registryNames [(⟨0, "E"⟩, [⟨"a", 0⟩])]).Nodup
      ∧ (registryNames (EventBus.subscribe [(⟨0, "E"⟩, [⟨"a", 0⟩])] ⟨0, "E"⟩ (some "b") 1).1).Nodup) :=
  ⟨⟨by decide,
    (subscribe_type_indexed_names_globally_unique
      [(⟨0, "E"⟩, [⟨"a", 0⟩])] ⟨0, "E"⟩ (some "a") 1).1 (by decide)⟩,
   ⟨by decide,
    (subscribe_type_indexed_names_globally_unique
      [(⟨0, "E"⟩, [⟨"a", 0⟩])] ⟨0, "E"⟩ (some "b") 1).2.1 (by decide)⟩,
   by decide,
   (subscribe_type_indexed_names_globally_unique
      [(⟨0, "E"⟩, [⟨"a", 0⟩])] ⟨0, "E"⟩ (some "b") 1).2.2 (by decide)⟩

/-- C4 counterexample: subscribe a handler named a for an event type, then
unsubscribe it. Every subscriber of the type is now gone (the registry entry
holds the empty handler list), yet handling an event of that type returns Ok
having invoked no handlers, not the Unregistered error the claim requires. -/
theorem handle_after_unsubscribing_all_is_ok :
    lookupReg
        (EventBus.unsubscribe (EventBus.subscribe [] ⟨0, "MyEvent"⟩ (some "a") 0).1 "a").1
        ⟨0, "MyEvent"⟩ = some []
    ∧ EventBus.handle
        (EventBus.unsubscribe (EventBus.subscribe [] ⟨0, "MyEvent"⟩ (some "a") 0).1 "a").1
        ⟨0, "MyEvent"⟩ = Except.ok []
    ∧ EventBus.handle
        (EventBus.unsubscribe (EventBus.subscribe [] ⟨0, "MyEvent"⟩ (some "a") 0).1 "a").1
        ⟨0, "MyEvent"⟩ ≠ Except.error (EventHandlerError.Unregistered "MyEvent") := by
  refine ⟨rfl, rfl, ?_⟩
  intro h
  exact Except.noConfusion h

/-- C4 amended: handle fails with Unregistered exactly when the registry has
no entry for the type identity (no subscriber was ever registered for it);
in particular an entry emptied by unsubscribing stays in the registry and
handle then succeeds invoking no handlers; otherwise handle invokes exactly
the stored handlers for that type identity, in their stored (registration)
order. -/
theorem handle_unregistered_iff_entry_absent (reg : Registry) (et : EventType) :
    (lookupReg reg et = none →
        EventBus.handle reg et = Except.error (EventHandlerError.Unregistered et.name))
    ∧ (∀ hs, lookupReg reg et = some hs → EventBus.handle reg et = Except.ok hs) := by
  constructor
  · intro h
    simp [EventBus.handle, h]
  · intro hs h
    simp [EventBus.handle, h]

/-- C4 witness: on the empty registry handle reports Unregistered; on a
registry with a stored entry it returns exactly the stored handlers. -/
theorem handle_unregistered_iff_entry_absent_witness :
    (lookupReg [] ⟨0, "E"⟩ = none
      ∧ EventBus.handle [] ⟨0, "E"⟩ =
          Except.error (EventHandlerError.Unregistered (EventType.name ⟨0, "E"⟩)))
    ∧ (lookupReg [(⟨0, "E"⟩, [⟨"a", 0⟩])] ⟨0, "E"⟩ = some [⟨"a", 0⟩]
      ∧ EventBus.handle [(⟨0, "E"⟩, [⟨"a", 0⟩])] ⟨0, "E"⟩ = Except.ok [⟨"a", 0⟩]) :=
  ⟨⟨by decide, (handle_unregistered_iff_entry_absent [] ⟨0, "E"⟩).1 (by decide)⟩,
   ⟨by decide,
    (handle_unregistered_iff_entry_absent [(⟨0, "E"⟩, [⟨"a", 0⟩])] ⟨0, "E"⟩).2
      [⟨"a", 0⟩] (by decide)⟩⟩

/-- C6: unsubscribe of an absent name fails with HandlerNotFound and leaves
the registry unchanged; unsubscribe of a present name succeeds and removes
every handler bearing that name wherever it is registered; and after the
removal, handling any event type never invokes a handler with that name
(zero deliveries). -/
theorem unsubscribe_removes_named_handler (reg : Registry) (name : String) :
    (nameExists reg name = false →
        EventBus.unsubscribe reg name =
          (reg, some (EventHandlerError.HandlerNotFound name)))
    ∧ (nameExists reg name = true →
        (EventBus.unsubscribe reg name).2 = none
        ∧ nameExists (EventBus.unsubscribe reg name).1 name = false)
    ∧ (∀ (et : EventType) (hs : List EventHandler),
        EventBus.handle (EventBus.unsubscribe reg name).1 et = Except.ok hs →
        ∀ h ∈ hs, h.name ≠ name) := by
  refine ⟨?_, ?_, ?_⟩
  · intro h
    simp only [EventBus.unsubscribe, h, Bool.false_eq_true, if_false]
    rw [unsubscribe_map_eq_self reg name h]
  · intro h
    constructor
    · simp [EventBus.unsubscribe, h]
    · simp only [EventBus.unsubscribe, h, if_true]
      exact nameExists_unsubscribed_false reg name
  · intro et hs hok h hmem heq
    rw [unsubscribe_fst reg name] at hok
    unfold EventBus.handle at hok
    rw [lookupReg_map_filter reg et (fun x => x.name != name)] at hok
    cases hl : lookupReg reg et with
    | none =>
        rw [hl] at hok
        exact Except.noConfusion hok
    | some hs0 =>
        rw [hl] at hok
        simp at hok
        subst hok
        have hbne := (List.mem_filter.mp hmem).2
        rw [heq] at hbne
        simp at hbne

/-- C6 witness: removing the subscription named a succeeds and no handler
named a survives; removing a nonexistent name fails with HandlerNotFound
leaving the registry unchanged; handlers delivered after removal never bear
the removed name. -/
theorem unsubscribe_removes_named_handler_witness :
    (nameExists [(⟨0, "E"⟩, [⟨"a", 0⟩])] "b" = false
      ∧ EventBus.unsubscribe [(⟨0, "E"⟩, [⟨"a", 0⟩])] "b" =
          ([(⟨0, "E"⟩, [⟨"a", 0⟩])], some (EventHandlerError.HandlerNotFound "b")))
    ∧ (nameExists [(⟨0, "E"⟩, [⟨"a", 0⟩])] "a" = true
      ∧ (EventBus.unsubscribe [(⟨0, "E"⟩, [⟨"a", 0⟩])] "a").2 = none
      ∧ nameExists (EventBus.unsubscribe [(⟨0, "E"⟩, [⟨"a", 0⟩])] "a").1 "a" = false)
    ∧ (EventBus.handle (EventBus.unsubscribe [(⟨0, "E"⟩, [⟨"a", 0⟩])] "a").1 ⟨0, "E"⟩ =
          Except.ok []
      ∧ ∀ h ∈ ([] : List EventHandler), EventHandler.name h ≠ "a") :=
  ⟨⟨by decide,
    (unsubscribe_removes_named_handler [(⟨0, "E"⟩, [⟨"a", 0⟩])] "b").1 (by decide)⟩,
   ⟨by decide,
    (unsubscribe_removes_named_handler [(⟨0, "E"⟩, [⟨"a", 0⟩])] "a").2.1 (by decide)⟩,
   rfl,
   (unsubscribe_removes_named_handler [(⟨0, "E"⟩, [⟨"a", 0⟩])] "a").2.2 ⟨0, "E"⟩ []
     rfl⟩

/-- C5: the handle of dispatch_sync(e) completes only after e has finished
executing on the Runtime thread and never before: the completion flag of
oneshot channel i is set exactly at the execution of the wrapped effect,
stays at its initial value through any drain whose trace does not contain
the wrapped effect, and is true after any drain whose trace contains it;
dropping the receiver is harmless because the wrapped effect's model update
and follow-up batch coincide with those of the unwrapped effect. -/
theorem dispatch_sync_completes_after_execution {α : Type}
    (fam : Nat → α → α × List SEff) (i : Nat) (st : α × (Nat → Bool)) :
    ((runSEff fam (SEff.wrapped i) st).1.1 = (runSEff fam (SEff.plain i) st).1.1
      ∧ (runSEff fam (SEff.wrapped i) st).2 = (runSEff fam (SEff.plain i) st).2
      ∧ (runSEff fam (SEff.wrapped i) st).1.2 i = true)
    ∧ (∀ (fuel : Nat) (q : List (List SEff)),
        (∀ e ∈ (handleEffects (runSEff fam) fuel st q).2.2, e ≠ SEff.wrapped i) →
        ((handleEffects (runSEff fam) fuel st q).1).2 i = st.2 i)
    ∧ (∀ (fuel : Nat) (q : List (List SEff)),
        SEff.wrapped i ∈ (handleEffects (runSEff fam) fuel st q).2.2 →
        ((handleEffects (runSEff fam) fuel st q).1).2 i = true) := by
  refine ⟨⟨rfl, rfl, by simp [runSEff]⟩, ?_, ?_⟩
  · intro fuel q h
    exact handleEffects_flag_preserved fam i fuel st q h
  · intro fuel q h
    exact handleEffects_flag_set fam i fuel st q h

/-- C5 witness: with a concrete effect family, a drain that never executes
the wrapped effect leaves completion flag 0 unset, and a drain that executes
it sets the flag. -/
theorem dispatch_sync_completes_after_execution_witness :
    ((∀ e ∈ (handleEffects (runSEff (fun _ a => (a + 1, ([] : List SEff)))) 2
          ((0 : Nat), fun _ => false) [[SEff.plain 0]]).2.2, e ≠ SEff.wrapped 0)
      ∧ ((handleEffects (runSEff (fun _ a => (a + 1, ([] : List SEff)))) 2
          ((0 : Nat), fun _ => false) [[SEff.plain 0]]).1).2 0 =
            ((0 : Nat), fun _ => false).2 0)
    ∧ (SEff.wrapped 0 ∈ (handleEffects (runSEff (fun _ a => (a + 1, ([] : List SEff)))) 2
          ((0 : Nat), fun _ => false) [[SEff.wrapped 0]]).2.2
      ∧ ((handleEffects (runSEff (fun _ a => (a + 1, ([] : List SEff)))) 2
          ((0 : Nat), fun _ => false) [[SEff.wrapped 0]]).1).2 0 = true) :=
  ⟨⟨by decide,
    (dispatch_sync_completes_after_execution (fun _ a => (a + 1, ([] : List SEff))) 0
      ((0 : Nat), fun _ => false)).2.1 2 [[SEff.plain 0]] (by decide)⟩,
   ⟨by decide,
    (dispatch_sync_completes_after_execution (fun _ a => (a + 1, ([] : List SEff))) 0
      ((0 : Nat), fun _ => false)).2.2 2 [[SEff.wrapped 0]] (by decide)⟩⟩

/-- C7 counterexample: with the channel torn down, the effect dispatch of
dispatch.rs panics via expect instead of returning the ChannelClosed or
RuntimeStopped error the claim requires at the boundary. -/
theorem effect_sender_dispatch_closed_panics :
    EffectSender.dispatch false = SendOutcome.panicked
    ∧ EffectSender.dispatch false ≠ SendOutcome.errorReturned EffectError.ChannelClosed
    ∧ EffectSender.dispatch false ≠ SendOutcome.errorReturned EffectError.RuntimeStopped := by
  refine ⟨rfl, ?_, ?_⟩ <;> decide

/-- C7 amended: on a torn-down channel, EventBus emit and the legacy
EffectBus dispatch return the ChannelClosed error at the boundary, while the
EffectSender dispatch of dispatch.rs panics; while the channel is open all
three deliver without failing. -/
theorem channel_closed_boundary_behaviour :
    EventBus.emit false = SendOutcome.errorReturned EmitError.ChannelClosed
    ∧ EffectBus.dispatch false = SendOutcome.errorReturned EffectError.ChannelClosed
    ∧ EffectSender.dispatch false = SendOutcome.panicked
    ∧ EventBus.emit true = SendOutcome.delivered
    ∧ EffectBus.dispatch true = SendOutcome.delivered
    ∧ EffectSender.dispatch true = SendOutcome.delivered := by
  decide

/-- C8: for both task families, and_then is a pure transformation of the
wrapped callable: running the composed task's inner callable on a context
yields exactly g applied to the result of the original inner callable, and
the composition stays within the same family. -/
theorem and_then_pure_composition {C O T : Type} (g : C → O) (f : O → T) (cx : C)
    (t : ThreadTask C O) (ta : AsyncTask C O) :
    (((ThreadTask.new g).and_then f).run cx = some (f (g cx)))
    ∧ ((t.and_then f).run cx = (t.run cx).map f)
    ∧ (((AsyncTask.new g).and_then f).run cx = some (f (g cx)))
    ∧ ((ta.and_then f).run cx = (ta.run cx).map f) := by
  refine ⟨rfl, ?_, rfl, ?_⟩
  · cases t with
    | mk inner => cases inner <;> rfl
  · cases ta with
    | mk inner => cases inner <;> rfl

/-- C9: the value returned by defer runs the closure exactly once when it is
dropped (and a further drop of the emptied value runs nothing), and abort
consumes the value so the closure never runs. -/
theorem defer_runs_once_abort_never {α : Type} (f : α) :
    ((defer f).dropRun).1 = some f
    ∧ (((defer f).dropRun).2.dropRun).1 = none
    ∧ (((defer f).abort).dropRun).1 = none :=
  ⟨rfl, rfl, rfl⟩

/-- C10: every task terminator produces an effect that returns the empty
follow-up batch (Effects::none()) to the drain loop; the effects derived
from the task's result only enter the pipeline later, as the fresh batch the
spawned job dispatches through the effect sender. -/
theorem task_terminators_return_empty_followup {C O β : Type}
    (g : C → O) (f : O → List β) (es : Effects C β) (cx : C) :
    ((ThreadTask.new g).perform f).followUp = []
    ∧ ((ThreadTask.new g).perform f).job.map (fun j => j cx) = some (f (g cx))
    ∧ ((AsyncTask.new g).perform f).followUp = []
    ∧ ((AsyncTask.new g).perform f).job.map (fun j => j cx) = some (f (g cx))
    ∧ (es.spawn g f).items = es.items ++ [(ThreadTask.new g).perform f]
    ∧ ((es.task g).perform f).items = es.items ++ [(AsyncTask.new g).perform f]
    ∧ ((es.task g).done).items =
        es.items ++ [{ job := some (fun _ => ([] : List β)), followUp := ([] : List β) }] :=
  ⟨rfl, rfl, rfl, rfl, rfl, rfl, rfl⟩
